import Mathlib

/-!
Shallow embedding of the question-classification and frequency-summarization
core of the survey-analysis application (src/classification.py and
src/summary.py), together with theorems settling the specification claims.

A cell is `Option String`: `none` models a missing value (NaN), `some s` a
raw answer already in string form (`astype(str)` in the source).  A table is
an ordered association list of named columns, matching the ordered mapping
semantics of a pandas DataFrame / Python dict.
-/

namespace SurveyApp

/-- The closed tag set of `classification.QuestionType`. -/
inductive QuestionType where
  | SCALE
  | BINARY
  | CATEGORICAL
  | OPEN
  | TECHNICAL
deriving DecidableEq, Repr

/-- `classification.QuestionInfo`: code, header text, detected type. -/
structure QuestionInfo where
  code : String
  text : String
  qtype : QuestionType
deriving DecidableEq, Repr

abbrev Cell := Option String
abbrev Column := List Cell
abbrev Table := List (String × Column)

/-- `series.dropna()`: keep the non-missing values, in order. -/
def dropna (series : Column) : List String := series.filterMap id

/-- Characters stripped by Python `str.strip()` (whitespace). -/
def isPySpace (c : Char) : Bool :=
  c = ' ' || c = '\t' || c = '\n' || c = '\x0d' || c = '\x0b' || c = '\x0c'

/-- Python `str.strip()`: drop leading and trailing whitespace. -/
def pyStrip (s : String) : String :=
  ⟨((s.data.dropWhile isPySpace).reverse.dropWhile isPySpace).reverse⟩

/-- Python `str.lower()` on the alphabets the program meets:
ASCII letters and the Cyrillic block used by Ukrainian. -/
def charLower (c : Char) : Char :=
  if 65 ≤ c.toNat ∧ c.toNat ≤ 90 then Char.ofNat (c.toNat + 32)
  else if 0x400 ≤ c.toNat ∧ c.toNat ≤ 0x40F then Char.ofNat (c.toNat + 0x50)
  else if 0x410 ≤ c.toNat ∧ c.toNat ≤ 0x42F then Char.ofNat (c.toNat + 0x20)
  else if c.toNat = 0x490 then Char.ofNat 0x491
  else c

/-- Python `str.lower()` lifted to strings. -/
def pyLower (s : String) : String := ⟨s.data.map charLower⟩

/-- `classification.BINARY_SET`, the closed binary-response vocabulary. -/
def BINARY_SET : List String :=
  ["так", "ні", "не знаю", "yes", "no", "don\x27t know", "dont know"]

/-- The literal five-point scale vocabulary of rule 1 of `detect_type`. -/
def SCALE_SET : List String := ["1", "2", "3", "4", "5"]

/-- `classification.detect_type`: the heuristic cascade assigning a
`QuestionType` to one column.  The float comparison
`n_unique / max(n, 1) <= 0.7` of the source is embedded as the exact
inequality `10 * n_unique ≤ 7 * max n 1`. -/
def detect_type (series : Column) : QuestionType :=
  let v := dropna series
  if v.isEmpty then QuestionType.OPEN
  else
    let v_str := v.map pyStrip
    let uniq := v_str.dedup
    let n_unique := uniq.length
    let n := v_str.length
    if uniq.all (fun x => x ∈ SCALE_SET) then QuestionType.SCALE
    else if (uniq.map pyLower).all (fun x => x ∈ BINARY_SET) then QuestionType.BINARY
    else if n_unique ≤ 15 ∧ 10 * n_unique ≤ 7 * max n 1 then QuestionType.CATEGORICAL
    else QuestionType.OPEN

/-- `classification.classify_questions`: classify every column, the first
`technical_columns` ones as TECHNICAL with sentinel code "-", the rest by
`detect_type` with positional codes "Q1", "Q2", ….  The source performs no
validation of `technical_columns`; neither does the embedding. -/
def classify_questions (df : Table) (technical_columns : Int) :
    List (String × QuestionInfo) :=
  df.enum.map fun p =>
    let idx : Int := p.1
    let text := pyStrip p.2.1
    let qtype :=
      if idx < technical_columns then QuestionType.TECHNICAL
      else detect_type p.2.2
    let code :=
      if technical_columns ≤ idx then "Q" ++ toString (idx - technical_columns + 1)
      else "-"
    (p.2.1, QuestionInfo.mk code text qtype)

/-- Boolean lexicographic strict comparison of character lists, by code
point.  This is an executable decision procedure for the standard
lexicographic order on strings, used by the sort of `sort_index`. -/
def charListLtb : List Char → List Char → Bool
  | _, [] => false
  | [], _ :: _ => true
  | a :: as, b :: bs =>
    if a < b then true
    else if b < a then false
    else charListLtb as bs

/-- Boolean lexicographic `≤` on strings. -/
def strLeb (a b : String) : Bool := !(charListLtb b.data a.data)

/-- The sort order of `sort_index`: lexicographic `≤` on strings (proved
below to agree with the standard order on `String`). -/
def strLe (a b : String) : Prop := strLeb a b = true

instance : DecidableRel strLe := fun a b => inferInstanceAs (Decidable (strLeb a b = true))

/-- One row of a frequency table: answer value, count, percent.
Percent is embedded as an exact rational. -/
structure FreqRow where
  value : String
  count : Nat
  percent : ℚ
deriving DecidableEq, Repr

abbrev FrequencyTable := List FreqRow

/-- `summary.QuestionSummary`: one question with its frequency table. -/
structure QuestionSummary where
  question : QuestionInfo
  table : FrequencyTable
deriving DecidableEq, Repr

/-- Round-half-to-even to an integer, the rounding mode of
`numpy`/`pandas.round`. -/
def roundHalfEven (x : ℚ) : ℤ :=
  if x - (Int.floor x : ℚ) < 1/2 then Int.floor x
  else if 1/2 < x - (Int.floor x : ℚ) then Int.floor x + 1
  else if Int.floor x % 2 = 0 then Int.floor x else Int.floor x + 1

/-- `Series.round(1)`: round to one decimal place. -/
def round1 (x : ℚ) : ℚ := (roundHalfEven (x * 10) : ℚ) / 10

/-- `v.value_counts().sort_index()`: the distinct values sorted ascending
(lexicographic on the string), each with its number of occurrences. -/
def value_counts_sort_index (l : List String) : List (String × Nat) :=
  (l.dedup.insertionSort strLe).map fun v => (v, l.count v)

/-- `summary._build_summary_for_series`: the frequency table of one column.
OPEN and TECHNICAL questions, and empty columns, get an empty table. -/
def build_summary_for_series (series : Column) (question : QuestionInfo) :
    QuestionSummary :=
  let v := dropna series
  if v.isEmpty ∨ question.qtype = QuestionType.OPEN ∨
      question.qtype = QuestionType.TECHNICAL then
    ⟨question, []⟩
  else
    let counts := value_counts_sort_index (v.map pyStrip)
    let total : Nat := (counts.map Prod.snd).sum
    ⟨question,
      counts.map fun p =>
        ⟨p.1, p.2, round1 ((p.2 : ℚ) / (total : ℚ) * 100)⟩⟩

/-- `df[col]`: look up a column by name (first match, like a pandas
DataFrame with unique column labels). -/
def lookupCol (df : Table) (col : String) : Option Column :=
  (df.find? fun p => p.1 = col).map Prod.snd

/-- `summary.build_all_summaries`: one summary per non-OPEN, non-TECHNICAL
entry of `qinfo`, in `qinfo` order.  `df[col]` on a column name absent from the
table raises `KeyError` in the source; the embedding returns `Except.error`
there, which aborts the whole traversal exactly as the uncaught Python
exception does. -/
def build_all_summaries (df : Table) (qinfo : List (String × QuestionInfo)) :
    Except String (List QuestionSummary) :=
  match qinfo with
  | [] => Except.ok []
  | (col, info) :: rest =>
    if info.qtype = QuestionType.OPEN ∨ info.qtype = QuestionType.TECHNICAL then
      build_all_summaries df rest
    else
      match lookupCol df col with
      | none => Except.error ("KeyError: " ++ col)
      | some series =>
        (build_all_summaries df rest).map
          fun l => build_summary_for_series series info :: l

/-- The classification cascade exactly as the specification words it
(claim C1): drop missing values; if nothing remains, OPEN; else, on the
distinct set of trimmed strings, test in order: subset of {"1",…,"5"} →
SCALE; lower-cased subset of the binary vocabulary → BINARY; at most 15
distinct values and distinct/total ratio at most 0.7 → CATEGORICAL;
otherwise OPEN.  Stated with finite sets and exact rationals, to be
compared with `detect_type`, the embedding of the source. -/
def detect_type_spec (series : Column) : QuestionType :=
  let remaining := dropna series
  if remaining = [] then QuestionType.OPEN
  else
    let distinct := (remaining.map pyStrip).toFinset
    if distinct ⊆ SCALE_SET.toFinset then QuestionType.SCALE
    else if distinct.image pyLower ⊆ BINARY_SET.toFinset then QuestionType.BINARY
    else if distinct.card ≤ 15 ∧
        (distinct.card : ℚ) / (remaining.length : ℚ) ≤ 7/10 then
      QuestionType.CATEGORICAL
    else QuestionType.OPEN

/-- A 175-answer column with 15 distinct values: thirteen values appearing
5 times each, one 12 times, one 98 times.  Classified CATEGORICAL
(15 ≤ 15 distinct, ratio 15/175 ≤ 0.7). -/
def colC5 : Column :=
  (["a", "b", "c", "d", "e", "f", "g", "h", "i", "j", "k", "l", "m"].map
    fun s => List.replicate 5 (some s)).flatten ++
  List.replicate 12 (some "n") ++ List.replicate 98 (some "o")

/-- One-column table holding `colC5`. -/
def dfC5 : Table := [("col", colC5)]

/-- The `QuestionInfo` that `classify_questions dfC5 0` assigns to `colC5`. -/
def qC5 : QuestionInfo :=
  QuestionInfo.mk "Q1" "col" QuestionType.CATEGORICAL

/-! ### The executable string comparison agrees with the standard order -/

theorem charListLtb_iff (x y : List Char) :
    charListLtb x y = true ↔ List.Lex (· < ·) x y := by
  induction x generalizing y with
  | nil =>
    cases y with
    | nil =>
      apply iff_of_false
      · simp [charListLtb]
      · exact List.Lex.not_nil_right _ _
    | cons b bs =>
      apply iff_of_true
      · rfl
      · exact List.Lex.nil
  | cons a as ih =>
    cases y with
    | nil =>
      apply iff_of_false
      · simp [charListLtb]
      · exact List.Lex.not_nil_right _ _
    | cons b bs =>
      by_cases hab : a < b
      · apply iff_of_true
        · simp [charListLtb, hab]
        · exact List.Lex.rel hab
      · by_cases hba : b < a
        · apply iff_of_false
          · simp [charListLtb, hab, hba]
          · intro h
            cases h with
            | cons h => exact absurd hba (lt_irrefl a)
            | rel h => exact hab h
        · have heq : a = b := le_antisymm (not_lt.mp hba) (not_lt.mp hab)
          subst heq
          simp only [charListLtb, if_neg hab, if_neg hba]
          rw [ih]
          exact List.Lex.cons_iff.symm

theorem strLe_iff (a b : String) : strLe a b ↔ a ≤ b := by
  have h1 : strLe a b ↔ ¬ charListLtb b.data a.data = true := by
    unfold strLe strLeb
    cases charListLtb b.data a.data <;> simp
  rw [h1, charListLtb_iff]
  constructor
  · intro h
    exact le_of_not_lt fun hlt => h (String.lt_iff_toList_lt.mp hlt)
  · intro h hlex
    exact absurd (String.lt_iff_toList_lt.mpr hlex) (not_lt.mpr h)

instance : IsTotal String strLe :=
  ⟨fun a b => by
    rcases le_total a b with h | h
    · exact Or.inl ((strLe_iff a b).mpr h)
    · exact Or.inr ((strLe_iff b a).mpr h)⟩

instance : IsTrans String strLe :=
  ⟨fun a b c h1 h2 =>
    (strLe_iff a c).mpr (le_trans ((strLe_iff a b).mp h1) ((strLe_iff b c).mp h2))⟩

/-! ### Structure of `value_counts_sort_index` -/

theorem value_counts_keys_perm_dedup (l : List String) :
    ((value_counts_sort_index l).map Prod.fst).Perm l.dedup := by
  unfold value_counts_sort_index
  rw [List.map_map]
  have h : (Prod.fst ∘ fun v => (v, l.count v)) = id := rfl
  rw [h, List.map_id]
  exact List.perm_insertionSort strLe l.dedup

theorem value_counts_sum_eq_length (l : List String) :
    ((value_counts_sort_index l).map Prod.snd).sum = l.length := by
  unfold value_counts_sort_index
  rw [List.map_map]
  have h : (Prod.snd ∘ fun v => (v, l.count v)) = fun v => l.count v := rfl
  rw [h]
  have hperm :
      ((l.dedup.insertionSort strLe).map fun v => l.count v).Perm
        (l.dedup.map fun v => l.count v) :=
    (List.perm_insertionSort strLe l.dedup).map _
  rw [hperm.sum_eq]
  exact List.sum_map_count_dedup_eq_length l

theorem value_counts_keys_sorted (l : List String) :
    ((value_counts_sort_index l).map Prod.fst).Sorted (· ≤ ·) := by
  unfold value_counts_sort_index
  rw [List.map_map]
  have h : (Prod.fst ∘ fun v => (v, l.count v)) = id := rfl
  rw [h, List.map_id]
  exact (List.sorted_insertionSort strLe l.dedup).imp fun hab => (strLe_iff _ _).mp hab

theorem value_counts_keys_nodup (l : List String) :
    ((value_counts_sort_index l).map Prod.fst).Nodup :=
  (value_counts_keys_perm_dedup l).nodup_iff.mpr l.nodup_dedup

theorem value_counts_keys_mem (l : List String) (s : String) :
    s ∈ (value_counts_sort_index l).map Prod.fst ↔ s ∈ l := by
  rw [(value_counts_keys_perm_dedup l).mem_iff]
  exact List.mem_dedup

theorem value_counts_counts (l : List String) (p : String × Nat)
    (hp : p ∈ value_counts_sort_index l) : p.2 = l.count p.1 := by
  unfold value_counts_sort_index at hp
  rcases List.mem_map.mp hp with ⟨v, _, rfl⟩
  rfl

/-! ### Rounding lemmas -/

theorem abs_roundHalfEven_sub (x : ℚ) : |(roundHalfEven x : ℚ) - x| ≤ 1/2 := by
  have hfl : ((Int.floor x : ℤ) : ℚ) ≤ x := Int.floor_le x
  have hfu : x < ((Int.floor x : ℤ) : ℚ) + 1 := Int.lt_floor_add_one x
  rw [abs_le]
  unfold roundHalfEven
  split_ifs with h1 h2 h3 <;> constructor <;> push_cast <;> linarith

theorem roundHalfEven_eq_floor_of (n : ℤ) {x : ℚ} (h1 : (n : ℚ) ≤ x)
    (h2 : x < (n : ℚ) + 1/2) : roundHalfEven x = n := by
  have hf : Int.floor x = n := Int.floor_eq_iff.mpr ⟨h1, by linarith⟩
  unfold roundHalfEven
  rw [hf, if_pos (by linarith)]

theorem roundHalfEven_eq_ceil_of (n : ℤ) {x : ℚ} (h1 : (n : ℚ) + 1/2 < x)
    (h2 : x ≤ (n : ℚ) + 1) : roundHalfEven x = n + 1 := by
  rcases lt_or_eq_of_le h2 with hlt | rfl
  · have hf : Int.floor x = n :=
      Int.floor_eq_iff.mpr ⟨by linarith, by linarith⟩
    unfold roundHalfEven
    rw [hf, if_neg (by linarith), if_pos (by linarith)]
  · have hf : Int.floor ((n : ℚ) + 1) = n + 1 := by
      rw [show ((n : ℚ) + 1) = ((n + 1 : ℤ) : ℚ) by push_cast; ring, Int.floor_intCast]
    unfold roundHalfEven
    rw [hf, if_pos (by push_cast; linarith)]

theorem abs_round1_sub (x : ℚ) : |round1 x - x| ≤ 1/20 := by
  unfold round1
  have h := abs_roundHalfEven_sub (x * 10)
  have heq : (roundHalfEven (x * 10) : ℚ) / 10 - x =
      ((roundHalfEven (x * 10) : ℚ) - x * 10) / 10 := by ring
  rw [heq, abs_div, abs_of_pos (by norm_num : (0:ℚ) < 10)]
  linarith

theorem round1_nonneg {x : ℚ} (h : 0 ≤ x) : 0 ≤ round1 x := by
  unfold round1
  have hb := abs_le.mp (abs_roundHalfEven_sub (x * 10))
  have h1 : (-1 : ℚ) < (roundHalfEven (x * 10) : ℚ) := by linarith [hb.1]
  have h2 : (0 : ℤ) ≤ roundHalfEven (x * 10) := by
    have h3 : (-1 : ℤ) < roundHalfEven (x * 10) := by exact_mod_cast h1
    omega
  exact div_nonneg (by exact_mod_cast h2) (by norm_num)

theorem round1_le_100 {x : ℚ} (h : x ≤ 100) : round1 x ≤ 100 := by
  unfold round1
  have hb := abs_le.mp (abs_roundHalfEven_sub (x * 10))
  have h1 : (roundHalfEven (x * 10) : ℚ) < 1001 := by linarith [hb.2]
  have h2 : roundHalfEven (x * 10) ≤ 1000 := by
    have h3 : roundHalfEven (x * 10) < 1001 := by exact_mod_cast h1
    omega
  have h3 : (roundHalfEven (x * 10) : ℚ) ≤ 1000 := by exact_mod_cast h2
  linarith

theorem abs_sum_map_round1_sub (ps : List ℚ) :
    |(ps.map round1).sum - ps.sum| ≤ ps.length / 20 := by
  induction ps with
  | nil => simp
  | cons p ps ih =>
    simp only [List.map_cons, List.sum_cons, List.length_cons]
    push_cast
    have h := abs_round1_sub p
    calc |round1 p + (ps.map round1).sum - (p + ps.sum)|
        = |(round1 p - p) + ((ps.map round1).sum - ps.sum)| := by congr 1; ring
      _ ≤ |round1 p - p| + |(ps.map round1).sum - ps.sum| := abs_add _ _
      _ ≤ 1/20 + ps.length / 20 := add_le_add h ih
      _ = ((ps.length : ℚ) + 1) / 20 := by ring

/-! ### Structure of `build_summary_for_series` -/

theorem build_summary_table_eq (series : Column) (q : QuestionInfo)
    (hq1 : q.qtype ≠ QuestionType.OPEN) (hq2 : q.qtype ≠ QuestionType.TECHNICAL)
    (hv : ¬ (dropna series).isEmpty) :
    (build_summary_for_series series q).table =
      (value_counts_sort_index ((dropna series).map pyStrip)).map fun p =>
        FreqRow.mk p.1 p.2
          (round1 ((p.2 : ℚ) / ((dropna series).length : ℚ) * 100)) := by
  have htot : ((value_counts_sort_index ((dropna series).map pyStrip)).map
      Prod.snd).sum = (dropna series).length := by
    rw [value_counts_sum_eq_length, List.length_map]
  unfold build_summary_for_series
  rw [if_neg (by simp [hv, hq1, hq2])]
  simp only [htot]

theorem sum_counts_eq (series : Column) (q : QuestionInfo)
    (hq1 : q.qtype ≠ QuestionType.OPEN) (hq2 : q.qtype ≠ QuestionType.TECHNICAL) :
    ((build_summary_for_series series q).table.map FreqRow.count).sum
      = (dropna series).length := by
  by_cases hv : (dropna series).isEmpty
  · unfold build_summary_for_series
    rw [if_pos (Or.inl hv)]
    rw [List.isEmpty_iff.mp hv]
    rfl
  · rw [build_summary_table_eq series q hq1 hq2 hv, List.map_map]
    have h : (FreqRow.count ∘ fun (p : String × Nat) =>
        FreqRow.mk p.1 p.2
          (round1 ((p.2 : ℚ) / ((dropna series).length : ℚ) * 100))) = Prod.snd := rfl
    rw [h, value_counts_sum_eq_length, List.length_map]

/-! ### Claim theorems -/

/-- Claim C1: for every column, classification applies the rule cascade in
strict order with first match winning — drop missing values; empty → OPEN;
distinct trimmed set ⊆ {"1",…,"5"} → SCALE; else lower-cased distinct set ⊆
the binary vocabulary → BINARY; else ≤ 15 distinct values and
distinct/total ratio ≤ 0.7 → CATEGORICAL; else OPEN.  `detect_type`, the
embedding of the source, coincides with `detect_type_spec`, the cascade as
the specification words it. -/
theorem detect_type_follows_spec_cascade (series : Column) :
    detect_type series = detect_type_spec series := by
  simp only [detect_type, detect_type_spec]
  by_cases hv : (dropna series).isEmpty
  · rw [if_pos hv, if_pos (List.isEmpty_iff.mp hv)]
  · have hne : dropna series ≠ [] := fun h => hv (List.isEmpty_iff.mpr h)
    have hn : 0 < (dropna series).length := List.length_pos.mpr hne
    rw [if_neg hv, if_neg hne]
    have hA : ((((dropna series).map pyStrip).dedup.all fun x =>
        decide (x ∈ SCALE_SET)) = true) ↔
        ((dropna series).map pyStrip).toFinset ⊆ SCALE_SET.toFinset := by
      simp [List.all_eq_true, Finset.subset_iff]
    have hB : (((((dropna series).map pyStrip).dedup.map pyLower).all fun x =>
        decide (x ∈ BINARY_SET)) = true) ↔
        ((dropna series).map pyStrip).toFinset.image pyLower ⊆
          BINARY_SET.toFinset := by
      simp [List.all_eq_true, Finset.subset_iff]
    have hC : (((dropna series).map pyStrip).dedup.length ≤ 15 ∧
        10 * ((dropna series).map pyStrip).dedup.length ≤
          7 * max ((dropna series).map pyStrip).length 1) ↔
        (((dropna series).map pyStrip).toFinset.card ≤ 15 ∧
          ((((dropna series).map pyStrip).toFinset.card : ℚ) /
            ((dropna series).length : ℚ) ≤ 7/10)) := by
      rw [List.card_toFinset, List.length_map]
      have hmax : max ((dropna series).length) 1 = (dropna series).length := by
        omega
      rw [hmax]
      constructor
      · rintro ⟨h15, hr⟩
        refine ⟨h15, ?_⟩
        rw [div_le_div_iff₀ (by exact_mod_cast hn) (by norm_num)]
        have : (10 : ℚ) * (((dropna series).map pyStrip).dedup.length : ℚ) ≤
            7 * ((dropna series).length : ℚ) := by exact_mod_cast hr
        linarith
      · rintro ⟨h15, hr⟩
        refine ⟨h15, ?_⟩
        rw [div_le_div_iff₀ (by exact_mod_cast hn) (by norm_num)] at hr
        have : (10 : ℚ) * (((dropna series).map pyStrip).dedup.length : ℚ) ≤
            7 * ((dropna series).length : ℚ) := by linarith
        exact_mod_cast this
    exact if_congr hA rfl (if_congr hB rfl (if_congr hC rfl rfl))

/-- Claim C8: the assigned `QuestionType` is invariant under any
permutation of the column's cells — classification depends only on the
multiset of values. -/
theorem detect_type_perm_invariant (s₁ s₂ : Column) (h : s₁.Perm s₂) :
    detect_type s₁ = detect_type s₂ := by
  have hv : (dropna s₁).Perm (dropna s₂) := h.filterMap id
  have hstr : ((dropna s₁).map pyStrip).Perm ((dropna s₂).map pyStrip) :=
    hv.map _
  have huniq := hstr.dedup
  simp only [detect_type]
  have hemp : (dropna s₁).isEmpty = (dropna s₂).isEmpty := by
    rw [Bool.eq_iff_iff, List.isEmpty_iff, List.isEmpty_iff]
    constructor
    · intro h1
      exact List.Perm.eq_nil (h1 ▸ hv.symm)
    · intro h2
      exact List.Perm.eq_nil (h2 ▸ hv)
  have hall1 : (((dropna s₁).map pyStrip).dedup.all fun x =>
      decide (x ∈ SCALE_SET)) = (((dropna s₂).map pyStrip).dedup.all fun x =>
      decide (x ∈ SCALE_SET)) := by
    rw [Bool.eq_iff_iff]
    simp only [List.all_eq_true]
    exact ⟨fun ha x hx => ha x (huniq.mem_iff.mpr hx),
           fun ha x hx => ha x (huniq.mem_iff.mp hx)⟩
  have hall2 : ((((dropna s₁).map pyStrip).dedup.map pyLower).all fun x =>
      decide (x ∈ BINARY_SET)) =
      ((((dropna s₂).map pyStrip).dedup.map pyLower).all fun x =>
      decide (x ∈ BINARY_SET)) := by
    have hm := huniq.map pyLower
    rw [Bool.eq_iff_iff]
    simp only [List.all_eq_true]
    exact ⟨fun ha x hx => ha x (hm.mem_iff.mpr hx),
           fun ha x hx => ha x (hm.mem_iff.mp hx)⟩
  rw [hemp, hall1, hall2, huniq.length_eq, hstr.length_eq]

/-- Closed witness for the permutation-invariance theorem at a concrete
permutation of a concrete column. -/
theorem detect_type_perm_invariant_witness :
    ([some "a", none, some "b", some "a"] : Column).Perm
        [some "b", some "a", none, some "a"] ∧
      detect_type [some "a", none, some "b", some "a"] =
        detect_type [some "b", some "a", none, some "a"] := by
  have hp : ([some "a", none, some "b", some "a"] : Column).Perm
      [some "b", some "a", none, some "a"] := by decide
  exact ⟨hp, detect_type_perm_invariant _ _ hp⟩

/-- The question of a summary is the `QuestionInfo` it was built from. -/
theorem build_summary_question (series : Column) (q : QuestionInfo) :
    (build_summary_for_series series q).question = q := by
  simp only [build_summary_for_series]
  split_ifs <;> rfl

/-- Every entry of a successful `build_all_summaries` run comes from an
included (non-OPEN, non-TECHNICAL) entry of `qinfo` whose column is present
in the table. -/
theorem build_all_ok_entries (df : Table) (qinfo : List (String × QuestionInfo))
    (l : List QuestionSummary) (h : build_all_summaries df qinfo = Except.ok l) :
    ∀ s ∈ l, ∃ col info series, (col, info) ∈ qinfo ∧
      info.qtype ≠ QuestionType.OPEN ∧ info.qtype ≠ QuestionType.TECHNICAL ∧
      lookupCol df col = some series ∧
      s = build_summary_for_series series info := by
  induction qinfo generalizing l with
  | nil =>
    unfold build_all_summaries at h
    cases h
    intro s hs
    cases hs
  | cons p rest ih =>
    unfold build_all_summaries at h
    by_cases hex : p.2.qtype = QuestionType.OPEN ∨ p.2.qtype = QuestionType.TECHNICAL
    · rw [if_pos hex] at h
      intro s hs
      rcases ih l h s hs with ⟨col, info, series, hmem, h1, h2, h3, h4⟩
      exact ⟨col, info, series, List.mem_cons_of_mem _ hmem, h1, h2, h3, h4⟩
    · rw [if_neg hex] at h
      cases hlk : lookupCol df p.1 with
      | none =>
        rw [hlk] at h
        cases h
      | some series =>
        rw [hlk] at h
        cases hrest : build_all_summaries df rest with
        | error e =>
          rw [hrest] at h
          cases h
        | ok l' =>
          rw [hrest] at h
          simp only [Except.map] at h
          cases h
          intro s hs
          rcases List.mem_cons.mp hs with rfl | hs
          · push_neg at hex
            exact ⟨p.1, p.2, series, List.mem_cons_self _ _, hex.1, hex.2, hlk, rfl⟩
          · rcases ih l' hrest s hs with ⟨col, info, series', hmem, h1, h2, h3, h4⟩
            exact ⟨col, info, series', List.mem_cons_of_mem _ hmem, h1, h2, h3, h4⟩

/-- Claim C7: an entry of the summarize output never carries an OPEN or
TECHNICAL question — those are filtered out before aggregation. -/
theorem summarize_excludes_open_technical (df : Table)
    (qinfo : List (String × QuestionInfo)) (l : List QuestionSummary)
    (s : QuestionSummary) (h : build_all_summaries df qinfo = Except.ok l)
    (hs : s ∈ l) :
    s.question.qtype ≠ QuestionType.OPEN ∧
      s.question.qtype ≠ QuestionType.TECHNICAL := by
  rcases build_all_ok_entries df qinfo l h s hs with
    ⟨col, info, series, _, h1, h2, _, rfl⟩
  rw [build_summary_question]
  exact ⟨h1, h2⟩

/-- Closed witness for the exclusion invariant on a concrete table. -/
theorem summarize_excludes_open_technical_witness :
    build_all_summaries [("A", [some "x", none, some "x"])]
        [("A", QuestionInfo.mk "Q1" "A" QuestionType.CATEGORICAL)] =
      Except.ok [build_summary_for_series [some "x", none, some "x"]
        (QuestionInfo.mk "Q1" "A" QuestionType.CATEGORICAL)] ∧
    (build_summary_for_series [some "x", none, some "x"]
        (QuestionInfo.mk "Q1" "A" QuestionType.CATEGORICAL)).question.qtype ≠
      QuestionType.OPEN := by
  refine ⟨rfl, ?_⟩
  exact (summarize_excludes_open_technical [("A", [some "x", none, some "x"])]
    [("A", QuestionInfo.mk "Q1" "A" QuestionType.CATEGORICAL)]
    [build_summary_for_series [some "x", none, some "x"]
      (QuestionInfo.mk "Q1" "A" QuestionType.CATEGORICAL)]
    (build_summary_for_series [some "x", none, some "x"]
      (QuestionInfo.mk "Q1" "A" QuestionType.CATEGORICAL))
    (by rfl) (List.mem_singleton.mpr rfl)).1

/-- Claim C4: for every entry of the summarize output, the counts of its
frequency table sum to the number of non-missing values of the column it
was built from. -/
theorem summarize_count_conservation (df : Table)
    (qinfo : List (String × QuestionInfo)) (l : List QuestionSummary)
    (s : QuestionSummary) (h : build_all_summaries df qinfo = Except.ok l)
    (hs : s ∈ l) :
    ∃ col series, (col, s.question) ∈ qinfo ∧ lookupCol df col = some series ∧
      (s.table.map FreqRow.count).sum = (dropna series).length := by
  rcases build_all_ok_entries df qinfo l h s hs with
    ⟨col, info, series, hmem, h1, h2, h3, rfl⟩
  refine ⟨col, series, ?_, h3, ?_⟩
  · rw [build_summary_question]
    exact hmem
  · exact sum_counts_eq series info h1 h2

/-- Closed witness for count conservation on a concrete table. -/
theorem summarize_count_conservation_witness :
    build_all_summaries [("A", [some "x", none, some "x"])]
        [("A", QuestionInfo.mk "Q1" "A" QuestionType.CATEGORICAL)] =
      Except.ok [build_summary_for_series [some "x", none, some "x"]
        (QuestionInfo.mk "Q1" "A" QuestionType.CATEGORICAL)] ∧
    (∃ col series,
      (col, (build_summary_for_series [some "x", none, some "x"]
        (QuestionInfo.mk "Q1" "A" QuestionType.CATEGORICAL)).question) ∈
          [("A", QuestionInfo.mk "Q1" "A" QuestionType.CATEGORICAL)] ∧
      lookupCol [("A", [some "x", none, some "x"])] col = some series ∧
      (((build_summary_for_series [some "x", none, some "x"]
        (QuestionInfo.mk "Q1" "A" QuestionType.CATEGORICAL)).table.map
          FreqRow.count).sum = (dropna series).length)) :=
  ⟨rfl, summarize_count_conservation [("A", [some "x", none, some "x"])]
    [("A", QuestionInfo.mk "Q1" "A" QuestionType.CATEGORICAL)]
    [build_summary_for_series [some "x", none, some "x"]
      (QuestionInfo.mk "Q1" "A" QuestionType.CATEGORICAL)]
    (build_summary_for_series [some "x", none, some "x"]
      (QuestionInfo.mk "Q1" "A" QuestionType.CATEGORICAL))
    (by rfl) (List.mem_singleton.mpr rfl)⟩

/-- Claim C2 counterexample: with a one-column table and
`technical_column_count = 2` (exceeding the column count),
`classify_questions` does not fail: it silently returns a complete
classification, tagging the column TECHNICAL with sentinel code "-". -/
theorem classify_questions_no_validation_counterexample :
    classify_questions [("A", [some "x"])] 2 =
      [("A", QuestionInfo.mk "-" "A" QuestionType.TECHNICAL)] := by
  decide

/-- Claim C2 as amended: for every table and every out-of-range
`technical_column_count` (negative, or exceeding the total column count),
`classify_questions` does not fail fast — it returns a classification with
exactly one entry per column, in column order. -/
theorem classify_questions_out_of_range_returns_classification (df : Table)
    (tc : Int) (_h : tc < 0 ∨ (df.length : Int) < tc) :
    (classify_questions df tc).map Prod.fst = df.map Prod.fst := by
  unfold classify_questions
  rw [List.map_map]
  have h1 : ((df.enum.map fun p : ℕ × (String × Column) => p.2.1) =
      df.map Prod.fst) := by
    have h2 : (fun p : ℕ × (String × Column) => p.2.1) =
        (Prod.fst ∘ Prod.snd) := rfl
    rw [h2, ← List.map_map, List.enum_map_snd]
  exact h1

/-- Closed witness: the out-of-range count 2 on a one-column table still
yields one classification entry per column. -/
theorem classify_questions_out_of_range_witness :
    ((2 : Int) < 0 ∨ (([("A", [some "x"])] : Table).length : Int) < 2) ∧
    (classify_questions [("A", [some "x"])] 2).map Prod.fst =
      ([("A", [some "x"])] : Table).map Prod.fst :=
  ⟨Or.inr (by norm_num),
   classify_questions_out_of_range_returns_classification
     [("A", [some "x"])] 2 (Or.inr (by norm_num))⟩

/-- Claim C10: a `technical_columns` count at least the column count is
accepted silently — every column of the result is tagged TECHNICAL with
the sentinel code "-". -/
theorem classify_questions_out_of_range_all_technical (df : Table) (tc : Int)
    (e : String × QuestionInfo) (h : (df.length : Int) ≤ tc)
    (he : e ∈ classify_questions df tc) :
    e.2.qtype = QuestionType.TECHNICAL ∧ e.2.code = "-" := by
  unfold classify_questions at he
  rcases List.mem_map.mp he with ⟨p, hp, rfl⟩
  have hi : p.1 < df.length := by
    rcases p with ⟨i, c⟩
    rcases List.getElem?_eq_some_iff.mp (List.mk_mem_enum_iff_getElem?.mp hp)
      with ⟨hlt, _⟩
    exact hlt
  have hlt : (p.1 : Int) < tc := lt_of_lt_of_le (by exact_mod_cast hi) h
  constructor
  · show (if (p.1 : Int) < tc then QuestionType.TECHNICAL
      else detect_type p.2.2) = QuestionType.TECHNICAL
    rw [if_pos hlt]
  · show (if tc ≤ (p.1 : Int) then "Q" ++ toString ((p.1 : Int) - tc + 1)
      else "-") = "-"
    rw [if_neg (not_le.mpr hlt)]

/-- Closed witness: count 5 on a one-column table tags the column TECHNICAL
with code "-". -/
theorem classify_questions_out_of_range_all_technical_witness :
    ((([("A", [some "x"])] : Table).length : Int) ≤ 5 ∧
      ("A", QuestionInfo.mk "-" "A" QuestionType.TECHNICAL) ∈
        classify_questions [("A", [some "x"])] 5) ∧
    (("A", QuestionInfo.mk "-" "A" QuestionType.TECHNICAL).2.qtype =
        QuestionType.TECHNICAL ∧
      ("A", QuestionInfo.mk "-" "A" QuestionType.TECHNICAL).2.code = "-") :=
  ⟨⟨by norm_num, by decide⟩,
   classify_questions_out_of_range_all_technical [("A", [some "x"])] 5
     ("A", QuestionInfo.mk "-" "A" QuestionType.TECHNICAL)
     (by norm_num) (by decide)⟩

/-- Claim C3 counterexample: a classification mapping naming a column "B"
absent from the table makes `build_all_summaries` abort the whole batch
with a KeyError — the present column "A" is not summarized either. -/
theorem build_all_summaries_aborts_counterexample :
    build_all_summaries [("A", [some "x", some "x"])]
        [("A", QuestionInfo.mk "Q1" "A" QuestionType.CATEGORICAL),
         ("B", QuestionInfo.mk "Q2" "B" QuestionType.CATEGORICAL)] =
      Except.error ("KeyError: B") := by
  rfl

/-- Claim C3 as amended: a per-column aggregation fault is not isolated —
whenever the mapping names an included (non-OPEN, non-TECHNICAL) column
that is absent from the table, the whole `build_all_summaries` call fails
with an error instead of processing the other columns. -/
theorem build_all_summaries_missing_column_aborts (df : Table)
    (qinfo : List (String × QuestionInfo))
    (h : ∃ p ∈ qinfo, p.2.qtype ≠ QuestionType.OPEN ∧
        p.2.qtype ≠ QuestionType.TECHNICAL ∧ lookupCol df p.1 = none) :
    ∃ e, build_all_summaries df qinfo = Except.error e := by
  induction qinfo with
  | nil =>
    rcases h with ⟨p, hp, _⟩
    cases hp
  | cons q rest ih =>
    unfold build_all_summaries
    by_cases hex : q.2.qtype = QuestionType.OPEN ∨
        q.2.qtype = QuestionType.TECHNICAL
    · rw [if_pos hex]
      apply ih
      rcases h with ⟨p, hp, h1, h2, h3⟩
      rcases List.mem_cons.mp hp with rfl | hp'
      · exact absurd hex (by simp [h1, h2])
      · exact ⟨p, hp', h1, h2, h3⟩
    · rw [if_neg hex]
      cases hlk : lookupCol df q.1 with
      | none =>
        exact ⟨"KeyError: " ++ q.1, rfl⟩
      | some series =>
        have h' : ∃ p ∈ rest, p.2.qtype ≠ QuestionType.OPEN ∧
            p.2.qtype ≠ QuestionType.TECHNICAL ∧ lookupCol df p.1 = none := by
          rcases h with ⟨p, hp, h1, h2, h3⟩
          rcases List.mem_cons.mp hp with rfl | hp'
          · rw [hlk] at h3
            cases h3
          · exact ⟨p, hp', h1, h2, h3⟩
        rcases ih h' with ⟨e, he⟩
        exact ⟨e, by rw [he]; rfl⟩

/-- Closed witness: a mapping with a present column "A" and a missing
column "B" makes the whole call fail. -/
theorem build_all_summaries_missing_column_aborts_witness :
    (∃ p ∈ [("A", QuestionInfo.mk "Q1" "A" QuestionType.CATEGORICAL),
            ("B", QuestionInfo.mk "Q2" "B" QuestionType.CATEGORICAL)],
      p.2.qtype ≠ QuestionType.OPEN ∧ p.2.qtype ≠ QuestionType.TECHNICAL ∧
        lookupCol [("A", [some "x", some "x"])] p.1 = none) ∧
    (∃ e, build_all_summaries [("A", [some "x", some "x"])]
        [("A", QuestionInfo.mk "Q1" "A" QuestionType.CATEGORICAL),
         ("B", QuestionInfo.mk "Q2" "B" QuestionType.CATEGORICAL)] =
      Except.error e) := by
  have hexists : ∃ p ∈ [("A", QuestionInfo.mk "Q1" "A" QuestionType.CATEGORICAL),
      ("B", QuestionInfo.mk "Q2" "B" QuestionType.CATEGORICAL)],
      p.2.qtype ≠ QuestionType.OPEN ∧ p.2.qtype ≠ QuestionType.TECHNICAL ∧
        lookupCol [("A", [some "x", some "x"])] p.1 = none := by
    refine ⟨("B", QuestionInfo.mk "Q2" "B" QuestionType.CATEGORICAL), ?_, ?_, ?_, ?_⟩
    · decide
    · decide
    · decide
    · rfl
  exact ⟨hexists, build_all_summaries_missing_column_aborts
    [("A", [some "x", some "x"])]
    [("A", QuestionInfo.mk "Q1" "A" QuestionType.CATEGORICAL),
     ("B", QuestionInfo.mk "Q2" "B" QuestionType.CATEGORICAL)] hexists⟩

/-- Claim C9: for an included question with at least one non-missing
answer, the frequency-table rows carry exactly one row per distinct trimmed
value of the column (membership coincides and the row values are strictly
ascending, hence duplicate-free), sorted lexicographically. -/
theorem summarize_rows_one_per_distinct_sorted (series : Column)
    (q : QuestionInfo) (hq1 : q.qtype ≠ QuestionType.OPEN)
    (hq2 : q.qtype ≠ QuestionType.TECHNICAL) (hv : dropna series ≠ []) :
    ((build_summary_for_series series q).table.map FreqRow.value).Sorted
        (· < ·) ∧
      ∀ s, (s ∈ (build_summary_for_series series q).table.map FreqRow.value ↔
        s ∈ (dropna series).map pyStrip) := by
  have hv' : ¬ (dropna series).isEmpty := fun h => hv (List.isEmpty_iff.mp h)
  rw [build_summary_table_eq series q hq1 hq2 hv', List.map_map]
  have hcomp : (FreqRow.value ∘ fun (p : String × Nat) =>
      FreqRow.mk p.1 p.2
        (round1 ((p.2 : ℚ) / ((dropna series).length : ℚ) * 100))) =
      Prod.fst := rfl
  rw [hcomp]
  exact ⟨(value_counts_keys_sorted _).lt_of_le (value_counts_keys_nodup _),
         fun s => value_counts_keys_mem _ s⟩

/-- Closed witness for the row-structure theorem on a concrete column. -/
theorem summarize_rows_one_per_distinct_sorted_witness :
    ((QuestionInfo.mk "Q1" "A" QuestionType.CATEGORICAL).qtype ≠
        QuestionType.OPEN ∧
      dropna [some "b", some "a", some "b"] ≠ []) ∧
    (((build_summary_for_series [some "b", some "a", some "b"]
        (QuestionInfo.mk "Q1" "A" QuestionType.CATEGORICAL)).table.map
          FreqRow.value).Sorted (· < ·) ∧
      ∀ s, (s ∈ (build_summary_for_series [some "b", some "a", some "b"]
          (QuestionInfo.mk "Q1" "A" QuestionType.CATEGORICAL)).table.map
            FreqRow.value ↔
        s ∈ (dropna [some "b", some "a", some "b"]).map pyStrip)) :=
  ⟨⟨by decide, by decide⟩,
   summarize_rows_one_per_distinct_sorted [some "b", some "a", some "b"]
     (QuestionInfo.mk "Q1" "A" QuestionType.CATEGORICAL)
     (by decide) (by decide) (by decide)⟩

/-- Sum of the per-count percentages before rounding. -/
theorem sum_map_div_mul (l : List (String × Nat)) (d : ℚ) :
    (l.map fun p => ((p.2 : ℚ) / d * 100)).sum =
      (((l.map Prod.snd).sum : ℕ) : ℚ) / d * 100 := by
  induction l with
  | nil => simp
  | cons p l ih =>
    simp only [List.map_cons, List.sum_cons, ih]
    push_cast
    ring

/-- Claim C5 as amended: every percent of a summarize table lies in
[0, 100]; for a non-empty table the percent total differs from 100 by at
most rows/20 (0.05 per row of independent rounding — up to 0.75 for the
15-row tables the classifier admits, not 0.5). -/
theorem percent_bounds_and_sum_slack (series : Column) (q : QuestionInfo)
    (hq1 : q.qtype ≠ QuestionType.OPEN)
    (hq2 : q.qtype ≠ QuestionType.TECHNICAL) :
    (∀ r ∈ (build_summary_for_series series q).table,
        0 ≤ r.percent ∧ r.percent ≤ 100) ∧
    ((build_summary_for_series series q).table ≠ [] →
      |(((build_summary_for_series series q).table.map FreqRow.percent).sum
          - 100)| ≤
        (((build_summary_for_series series q).table.length : ℚ) / 20)) := by
  by_cases hv : (dropna series).isEmpty
  · have htab : (build_summary_for_series series q).table = [] := by
      simp only [build_summary_for_series]
      rw [if_pos (Or.inl hv)]
    rw [htab]
    exact ⟨by simp, fun hne => absurd rfl hne⟩
  · have hlenpos : 0 < (dropna series).length :=
      List.length_pos.mpr fun h => hv (List.isEmpty_iff.mpr h)
    rw [build_summary_table_eq series q hq1 hq2 hv]
    constructor
    · intro r hr
      rcases List.mem_map.mp hr with ⟨p, hp, rfl⟩
      have hcount : p.2 ≤ (dropna series).length := by
        rw [value_counts_counts _ p hp]
        calc ((dropna series).map pyStrip).count p.1
            ≤ ((dropna series).map pyStrip).length := List.count_le_length _ _
          _ = (dropna series).length := List.length_map _ _
      have h0 : (0:ℚ) ≤ (p.2 : ℚ) / ((dropna series).length : ℚ) * 100 := by
        positivity
      have h100 : (p.2 : ℚ) / ((dropna series).length : ℚ) * 100 ≤ 100 := by
        have hdiv : (p.2 : ℚ) / ((dropna series).length : ℚ) ≤ 1 := by
          rw [div_le_one (by exact_mod_cast hlenpos)]
          exact_mod_cast hcount
        nlinarith
      exact ⟨round1_nonneg h0, round1_le_100 h100⟩
    · intro hne
      rw [List.map_map]
      have hcomp : (FreqRow.percent ∘ fun (p : String × Nat) =>
          FreqRow.mk p.1 p.2
            (round1 ((p.2 : ℚ) / ((dropna series).length : ℚ) * 100))) =
          fun (p : String × Nat) =>
            round1 ((p.2 : ℚ) / ((dropna series).length : ℚ) * 100) := rfl
      rw [hcomp]
      have hmap : ((value_counts_sort_index ((dropna series).map pyStrip)).map
          fun p => round1 ((p.2 : ℚ) / ((dropna series).length : ℚ) * 100)) =
          ((value_counts_sort_index ((dropna series).map pyStrip)).map
            fun p => ((p.2 : ℚ) / ((dropna series).length : ℚ) * 100)).map
              round1 := by
        rw [List.map_map]
        rfl
      rw [hmap]
      have hlenne : ((dropna series).length : ℚ) ≠ 0 := by
        exact_mod_cast hlenpos.ne'
      have hsum : ((value_counts_sort_index ((dropna series).map pyStrip)).map
          fun p => ((p.2 : ℚ) / ((dropna series).length : ℚ) * 100)).sum =
          100 := by
        rw [sum_map_div_mul, value_counts_sum_eq_length, List.length_map]
        field_simp
      have hfinal := abs_sum_map_round1_sub
        ((value_counts_sort_index ((dropna series).map pyStrip)).map
          fun p => ((p.2 : ℚ) / ((dropna series).length : ℚ) * 100))
      rw [hsum] at hfinal
      simpa [List.length_map] using hfinal

/-- Closed witness for the amended percent bounds on a concrete column. -/
theorem percent_bounds_and_sum_slack_witness :
    ((QuestionInfo.mk "Q1" "A" QuestionType.CATEGORICAL).qtype ≠
        QuestionType.OPEN ∧
      (QuestionInfo.mk "Q1" "A" QuestionType.CATEGORICAL).qtype ≠
        QuestionType.TECHNICAL) ∧
    ((∀ r ∈ (build_summary_for_series [some "x", some "x", some "y"]
        (QuestionInfo.mk "Q1" "A" QuestionType.CATEGORICAL)).table,
        0 ≤ r.percent ∧ r.percent ≤ 100) ∧
      ((build_summary_for_series [some "x", some "x", some "y"]
          (QuestionInfo.mk "Q1" "A" QuestionType.CATEGORICAL)).table ≠ [] →
        |(((build_summary_for_series [some "x", some "x", some "y"]
            (QuestionInfo.mk "Q1" "A" QuestionType.CATEGORICAL)).table.map
              FreqRow.percent).sum - 100)| ≤
          (((build_summary_for_series [some "x", some "x", some "y"]
            (QuestionInfo.mk "Q1" "A" QuestionType.CATEGORICAL)).table.length :
              ℚ) / 20))) :=
  ⟨⟨by decide, by decide⟩,
   percent_bounds_and_sum_slack [some "x", some "x", some "y"]
     (QuestionInfo.mk "Q1" "A" QuestionType.CATEGORICAL)
     (by decide) (by decide)⟩

/-- Evaluation rule for `round1` when the scaled value rounds down. -/
theorem round1_eq_of_floor (x : ℚ) (n : ℤ) (h1 : (n : ℚ) ≤ x * 10)
    (h2 : x * 10 < (n : ℚ) + 1/2) : round1 x = (n : ℚ) / 10 := by
  unfold round1
  rw [roundHalfEven_eq_floor_of n h1 h2]

/-- Evaluation rule for `round1` when the scaled value rounds up. -/
theorem round1_eq_of_ceil (x : ℚ) (n : ℤ) (h1 : (n : ℚ) + 1/2 < x * 10)
    (h2 : x * 10 ≤ (n : ℚ) + 1) : round1 x = ((n : ℚ) + 1) / 10 := by
  unfold round1
  rw [roundHalfEven_eq_ceil_of n h1 h2]
  push_cast
  ring

/-- Claim C6: the column ["Так","Ні","Так","так "] classifies BINARY
(trimmed, lower-cased membership test), while aggregation groups by the
trimmed case-preserved string, so "Так" and "так" stay distinct rows:
exactly [("Ні",1,25.0),("Так",2,50.0),("так",1,25.0)] in sorted order. -/
theorem binary_classify_vs_case_sensitive_aggregation :
    detect_type [some "Так", some "Ні", some "Так", some "так "] =
      QuestionType.BINARY ∧
    (build_summary_for_series [some "Так", some "Ні", some "Так", some "так "]
        (QuestionInfo.mk "Q1" "q" QuestionType.BINARY)).table =
      [FreqRow.mk "Ні" 1 25, FreqRow.mk "Так" 2 50, FreqRow.mk "так" 1 25] := by
  constructor
  · decide
  · rw [build_summary_table_eq _ _ (by decide) (by decide) (by decide)]
    have hvc : value_counts_sort_index
        ((dropna [some "Так", some "Ні", some "Так", some "так "]).map
          pyStrip) = [("Ні", 1), ("Так", 2), ("так", 1)] := by decide
    have hlen : (dropna [some "Так", some "Ні", some "Так", some "так "]).length
        = 4 := by decide
    rw [hvc, hlen]
    simp only [List.map_cons, List.map_nil]
    have h25 : round1 (((1 : ℕ) : ℚ) / ((4 : ℕ) : ℚ) * 100) = 25 := by
      rw [round1_eq_of_floor _ 250 (by norm_num) (by norm_num)]
      norm_num
    have h50 : round1 (((2 : ℕ) : ℚ) / ((4 : ℕ) : ℚ) * 100) = 50 := by
      rw [round1_eq_of_floor _ 500 (by norm_num) (by norm_num)]
      norm_num
    rw [h25, h50]

set_option maxRecDepth 100000 in
/-- Claim C5 counterexample: a real classify-then-summarize run on a
175-row column with 15 distinct values (13×5 + 12 + 98 occurrences)
produces a non-empty table whose percents sum to 100.6 — farther than 0.5
from 100. -/
theorem percent_sum_slack_counterexample :
    build_all_summaries dfC5 (classify_questions dfC5 0) =
      Except.ok [build_summary_for_series colC5 qC5] ∧
    (build_summary_for_series colC5 qC5).table ≠ [] ∧
    ¬ |(((build_summary_for_series colC5 qC5).table.map FreqRow.percent).sum
        - 100)| ≤ 1/2 := by
  have hvc : value_counts_sort_index ((dropna colC5).map pyStrip) =
      [("a", 5), ("b", 5), ("c", 5), ("d", 5), ("e", 5), ("f", 5), ("g", 5),
       ("h", 5), ("i", 5), ("j", 5), ("k", 5), ("l", 5), ("m", 5),
       ("n", 12), ("o", 98)] := by decide
  have hlen : (dropna colC5).length = 175 := by decide
  have htab := build_summary_table_eq colC5 qC5 (by decide) (by decide)
    (by decide)
  rw [hvc, hlen] at htab
  simp only [List.map_cons, List.map_nil] at htab
  have h29 : round1 (((5 : ℕ) : ℚ) / ((175 : ℕ) : ℚ) * 100) = 29/10 := by
    rw [round1_eq_of_ceil _ 28 (by norm_num) (by norm_num)]
    norm_num
  have h69 : round1 (((12 : ℕ) : ℚ) / ((175 : ℕ) : ℚ) * 100) = 69/10 := by
    rw [round1_eq_of_ceil _ 68 (by norm_num) (by norm_num)]
    norm_num
  have h56 : round1 (((98 : ℕ) : ℚ) / ((175 : ℕ) : ℚ) * 100) = 56 := by
    rw [round1_eq_of_floor _ 560 (by norm_num) (by norm_num)]
    norm_num
  rw [h29, h69, h56] at htab
  refine ⟨?_, ?_, ?_⟩
  · have hclass : classify_questions dfC5 0 = [("col", qC5)] := by decide
    rw [hclass]
    rfl
  · rw [htab]
    simp
  · rw [htab]
    simp only [List.map_cons, List.map_nil, List.sum_cons, List.sum_nil]
    norm_num
    rw [show |(3 : ℚ)/5| = 3/5 from abs_of_pos (by norm_num)]
    norm_num

end SurveyApp
